import Mathlib

/-!
Verification of the talk2ai session pipeline controller.

The embedding below follows the TypeScript sources:
* `src/deepgram-tts.ts` — `DeepgramTTS` and `DeepgramSTT` (connection state,
  `sendAudio`, reconnect-on-close, `disconnect`, transcript extraction);
* `src/index.ts` — `MyDurableObject.fetch` (session controller: message
  handler, transcript callback, history, PQueue with concurrency 1).

The sentence buffer `bufferText` is imported by the controller from
`./utils`, a file that is not part of the sources; it is modelled from the
specification (§4.1) and marked as such on its definition.
-/

set_option maxHeartbeats 1000000

namespace Talk2AI

/-! ### Data model -/

/-- One message of the conversation history: `{role, content}` as pushed
onto `msgHistory` by the controller. -/
structure Turn where
  role : String
  content : String
deriving DecidableEq, Repr

def userTurn (content : String) : Turn := ⟨"user", content⟩

def assistantTurn (content : String) : Turn := ⟨"assistant", content⟩

/-- Outbound client messages, the three JSON shapes sent over the WebSocket:
`{type:"text", text, interim}` for transcripts, `{type:"audio", text, audio}`
for synthesized sentences, `{type:"text", text}` for text-only fallback. -/
inductive OutMsg where
  | transcriptText (text : String) (interim : Bool)
  | audioMsg (text : String) (audio : String)
  | fallbackText (text : String)
deriving DecidableEq, Repr

/-- Outcome of one synthesis attempt as observed by the queue task in
`index.ts`: the overridden `onAudioCallback` fired (`success`), the
overridden `onErrorCallback` fired (`failure`), or neither fired within the
10-second polling window (`timeout`). -/
inductive SynthOutcome where
  | success (audio : String)
  | failure
  | timeout
deriving DecidableEq, Repr

/-- The single outbound message produced by the queue task for `sentence`
under outcome `o` (`index.ts` queue.add body): on success an audio message;
on a reported error or on timeout the task throws and the catch block sends
`{type:"text", text: "[TTS Error] " ++ sentence}`. -/
def taskMessage (sentence : String) (o : SynthOutcome) : OutMsg :=
  match o with
  | .success a => .audioMsg sentence a
  | .failure => .fallbackText ("[TTS Error] " ++ sentence)
  | .timeout => .fallbackText ("[TTS Error] " ++ sentence)

/-! ### Sentence Buffer

`bufferText` is imported from `./utils`, which is absent from the sources;
the model below follows §4.1 of the specification. -/

/-- Terminal sentence punctuation recognised as a sentence boundary. -/
def isTerminalPunct (c : Char) : Bool := c = '.' || c = '!' || c = '?'

/-- Index of the first terminal-punctuation character of the buffer. -/
def findBoundary : List Char → Option Nat
  | [] => none
  | c :: cs => if isTerminalPunct c then some 0 else (findBoundary cs).map (· + 1)

theorem findBoundary_lt {l : List Char} {i : Nat} (h : findBoundary l = some i) :
    i < l.length := by
  induction l generalizing i with
  | nil => simp [findBoundary] at h
  | cons c cs ih =>
    simp only [findBoundary] at h
    by_cases hc : isTerminalPunct c
    · rw [if_pos hc] at h
      cases h
      simp
    · rw [if_neg hc] at h
      cases hj : findBoundary cs with
      | none => rw [hj] at h; simp at h
      | some j =>
        rw [hj] at h
        simp at h
        have := ih hj
        simp
        omega

/-- Modelled from the spec: the extraction loop of `bufferText` (§4.1),
whose source (`./utils`) is missing from the repository. Repeatedly
extracts a leading substring ending at a sentence boundary — terminal
punctuation, or a hard length cap `cap` on an unpunctuated buffer — and
emits it as a unit, leaving the remainder buffered. -/
def extractUnits (cap : Nat) (buf : List Char) : List (List Char) × List Char :=
  match h : findBoundary buf with
  | some i =>
      let res := extractUnits cap (buf.drop (i + 1))
      (buf.take (i + 1) :: res.1, res.2)
  | none =>
      if _hc : 0 < cap ∧ cap < buf.length then
        let res := extractUnits cap (buf.drop cap)
        (buf.take cap :: res.1, res.2)
      else ([], buf)
termination_by buf.length
decreasing_by
  · have := findBoundary_lt h
    simp
    omega
  · simp
    omega

/-- Modelled from the spec: feeding one fragment to the buffer (§4.1) —
append the fragment to the residual, then run the extraction loop; emitted
units accumulate in order. -/
def feedFragment (cap : Nat) (st : List (List Char) × List Char)
    (frag : List Char) : List (List Char) × List Char :=
  let res := extractUnits cap (st.2 ++ frag)
  (st.1 ++ res.1, res.2)

/-- Modelled from the spec: feeding a whole fragment stream through the
sentence buffer, starting from an empty residual. -/
def feedAll (cap : Nat) (frags : List (List Char)) : List (List Char) × List Char :=
  frags.foldl (feedFragment cap) ([], [])

/-- Modelled from the spec: `bufferText` (§4.1) — emit completed sentence
units as fragments arrive; on stream completion flush any non-empty
residual as a final unit. -/
def bufferTextL (cap : Nat) (frags : List (List Char)) : List (List Char) :=
  let res := feedAll cap frags
  if res.2.isEmpty then res.1 else res.1 ++ [res.2]

/-- String-level wrapper of the sentence buffer used by the controller. -/
def bufferTextS (cap : Nat) (frags : List String) : List String :=
  (bufferTextL cap (frags.map String.toList)).map List.asString

/-! ### Ordered Synthesis Queue

`index.ts` creates `new PQueue({ concurrency: 1 })` and, per sentence unit,
`await queue.add(task)`. The task synthesizes, polls for the result with a
bounded timeout, and sends exactly one WebSocket message (audio on success,
text fallback otherwise). With concurrency 1, PQueue starts tasks strictly
in submission (FIFO) order and starts the next task only after the previous
completes. The small-step machine below models this: `latency` is the
number of steps the unit's synthesis call takes before it resolves, so a
choice of latencies is exactly one interleaving of synthesis completion
times. -/

/-- One submitted work item: the sentence unit, how long its synthesis call
takes to resolve, and the outcome it resolves with. -/
structure Job where
  sentence : String
  latency : Nat
  outcome : SynthOutcome
deriving DecidableEq, Repr

/-- The single outbound message the queue task emits for a job. -/
def jobMessage (j : Job) : OutMsg := taskMessage j.sentence j.outcome

/-- State of the concurrency-1 queue: submitted-but-unstarted jobs in
submission order, the running task (with remaining latency), and the
outbound messages sent so far, in send order. -/
structure QueueState where
  pending : List Job
  running : Option (Job × Nat)
  sent : List OutMsg
deriving DecidableEq, Repr

/-- One scheduler step: a running task whose synthesis has resolved sends
its one message and completes; a running task otherwise progresses; an idle
queue starts the oldest pending job (FIFO, concurrency 1). -/
def queueStep (st : QueueState) : QueueState :=
  match st.running with
  | some (j, 0) => { st with running := none, sent := st.sent ++ [jobMessage j] }
  | some (j, k + 1) => { st with running := some (j, k) }
  | none =>
      match st.pending with
      | [] => st
      | j :: rest => { st with pending := rest, running := some (j, j.latency) }

/-- Iterate the scheduler `n` steps. -/
def queueRun (st : QueueState) : Nat → QueueState
  | 0 => st
  | n + 1 => queueRun (queueStep st) n

/-- Steps needed to start, run and complete one job. -/
def jobFuel (j : Job) : Nat := j.latency + 2

/-- Steps needed to drain a whole submission list. -/
def queueFuel (jobs : List Job) : Nat := (jobs.map jobFuel).sum

/-! ### Transcription Link — `DeepgramSTT` (`src/deepgram-tts.ts`) -/

/-- Mutable flags of a `DeepgramSTT` instance: `isConnected`,
`isReconnecting`, whether `connection` is non-null, and whether
`onTranscriptCallback` is set. -/
structure STTState where
  isConnected : Bool
  hasConnection : Bool
  isReconnecting : Bool
  hasCallback : Bool
deriving DecidableEq, Repr

/-- What `DeepgramSTT.sendAudio` does with the audio buffer. -/
inductive SendAudioAction where
  /-- forward to the live link: `connection.send(audioBuffer)`. -/
  | forwardToLink
  /-- set `isReconnecting`, call `connect(...)`, and on a successful
  reconnection call `sendAudio(audioBuffer)` again (resend). -/
  | reconnectThenResend
  /-- bare `return`: the buffer is discarded and no recovery is started. -/
  | dropWithoutRecovery
deriving DecidableEq, Repr

/-- Model of `DeepgramSTT.sendAudio` (`deepgram-tts.ts` 350–376): when not connected
(or the connection handle is null) it reconnects and resends only if a
transcript callback is registered and no reconnect is already in flight;
otherwise it returns without doing anything with the buffer. -/
def sendAudio (st : STTState) : SendAudioAction :=
  if !st.isConnected || !st.hasConnection then
    if st.hasCallback && !st.isReconnecting then .reconnectThenResend
    else .dropWithoutRecovery
  else .forwardToLink

/-- Reconnect bookkeeping of the `Close` handler installed by
`DeepgramSTT.connect` (`deepgram-tts.ts` 316–325). -/
structure ReconnectModel where
  /-- automatic reconnect attempts scheduled so far -/
  attempts : Nat
  /-- whether `onTranscriptCallback` is set -/
  hasCallback : Bool
  /-- whether the link has given up retrying and escalated to the error
  callback; the code contains no path that sets this -/
  escalated : Bool
deriving DecidableEq, Repr

/-- Effect of one unexpected `Close` event: `isConnected := false`, then
after a fixed 100 ms delay call `connect` again whenever a transcript
callback is registered. No retry counter is consulted, no cap applied, and
no escalation to the error callback ever happens. -/
def onUnexpectedClose (m : ReconnectModel) : ReconnectModel :=
  if m.hasCallback then { m with attempts := m.attempts + 1 } else m

/-- Evolution under `n` consecutive unexpected closes (every reconnect
attempt immediately closing again). -/
def closeStorm (m : ReconnectModel) : Nat → ReconnectModel
  | 0 => m
  | n + 1 => closeStorm (onUnexpectedClose m) n

/-- Model of `DeepgramSTT.disconnect` (`deepgram-tts.ts` 378–388): if a connection
exists, `connection.finish()` inside try/catch (a raising close is
swallowed), then `connection = null`; finally `isConnected = false`.
`closeRaises` says whether the underlying close throws; it never affects
the resulting state and no exception propagates. -/
def sttDisconnect (st : STTState) (closeRaises : Bool) : STTState :=
  if st.hasConnection then
    let _swallowed : Except String Unit :=
      if closeRaises then .error ("Error closing Deepgram STT connection") else .ok ()
    { st with hasConnection := false, isConnected := false }
  else { st with isConnected := false }

/-- Mutable flags of a `DeepgramTTS` instance relevant to `disconnect`. -/
structure TTSLinkState where
  hasConnection : Bool
  isConnected : Bool
deriving DecidableEq, Repr

/-- Model of `DeepgramTTS.disconnect` (`deepgram-tts.ts` 212–222): best-effort
`connection.close()` with errors swallowed, `connection = null`,
`isConnected = false`. -/
def ttsDisconnect (st : TTSLinkState) (closeRaises : Bool) : TTSLinkState :=
  if st.hasConnection then
    let _swallowed : Except String Unit :=
      if closeRaises then .error ("Error closing Deepgram TTS connection") else .ok ()
    { st with hasConnection := false, isConnected := false }
  else { st with isConnected := false }

/-- Payload of a Deepgram `Transcript` event as read by the handler in
`DeepgramSTT.connect` (`deepgram-tts.ts` 304–314):
`data?.channel?.alternatives?.[0]?.transcript` and `data?.is_final`, each
possibly absent. -/
structure TranscriptData where
  transcript : Option String
  is_final : Option Bool
deriving DecidableEq, Repr

/-- Extraction `const transcript = data?.channel?.alternatives?.[0]?.transcript || ''`. -/
def extractedTranscript (d : TranscriptData) : String := d.transcript.getD ""

/-- Extraction `const isFinal = data?.is_final || false`. -/
def extractedIsFinal (d : TranscriptData) : Bool := d.is_final.getD false

/-- Guard `if (transcript && this.onTranscriptCallback)` — the caller's callback
runs only for a non-empty extracted transcript (JS string truthiness) when
a callback is registered. -/
def invokesCallback (d : TranscriptData) (hasCallback : Bool) : Bool :=
  !(extractedTranscript d).isEmpty && hasCallback

/-! ### Session Controller — `MyDurableObject.fetch` (`src/index.ts`) -/

/-- The per-sentence pipeline inside the `bufferText` callback: for each
emitted sentence unit, first `msgHistory.push({role:'assistant', content:
sentence})`, then `await queue.add(task)` whose task emits the unit's one
message. Each pair carries the unit's synthesis outcome. Returns the final
history and the outbound messages in emission order. -/
def runSentencePipeline (history : List Turn) :
    List (String × SynthOutcome) → List Turn × List OutMsg
  | [] => (history, [])
  | (s, o) :: rest =>
      let res := runSentencePipeline (history ++ [assistantTurn s]) rest
      (res.1, taskMessage s o :: res.2)

/-- Observable events while one sentence unit flows through the controller,
in program order: the assistant turn is pushed, then the awaited synthesis
resolves (successfully or not), then the unit's message is sent. -/
inductive UnitEvent where
  | appendAssistant (s : String)
  | synthesisDone (s : String) (o : SynthOutcome)
  | sendMsg (m : OutMsg)
deriving DecidableEq, Repr

/-- Event order for one sentence unit (`index.ts`: the push at the top of
the `bufferText` callback happens before the queue task's poll loop
observes the synthesis outcome, which happens before `ws.send`). -/
def unitTrace (s : String) (o : SynthOutcome) : List UnitEvent :=
  [.appendAssistant s, .synthesisDone s o, .sendMsg (taskMessage s o)]

def isAppendEvt : UnitEvent → Bool
  | .appendAssistant _ => true
  | _ => false

def isDoneEvt : UnitEvent → Bool
  | .synthesisDone _ _ => true
  | _ => false

/-- Index of the first event satisfying `p`. -/
def firstIdx (p : UnitEvent → Bool) : List UnitEvent → Option Nat
  | [] => none
  | e :: es => if p e then some 0 else (firstIdx p es).map (· + 1)

/-- Whether the assistant-turn append occurs strictly before the synthesis
completes in the unit's event trace. -/
def appendPrecedesDone (s : String) (o : SynthOutcome) : Bool :=
  match firstIdx isAppendEvt (unitTrace s o), firstIdx isDoneEvt (unitTrace s o) with
  | some i, some j => decide (i < j)
  | _, _ => false

/-- Whitespace characters stripped by JavaScript `String.prototype.trim`
(the forms relevant to transcripts). -/
def isWsChar (c : Char) : Bool := c = ' ' || c = '\t' || c = '\n' || c = '\r'

/-- JavaScript `transcript.trim()`: strip leading and trailing whitespace. -/
def jsTrim (s : String) : String :=
  ((s.toList.dropWhile isWsChar).reverse.dropWhile isWsChar).reverse.asString

/-- Result of the STT transcript callback in `index.ts`. -/
structure HandleResult where
  history : List Turn
  messages : List OutMsg
  inferenceInvoked : Bool
deriving DecidableEq, Repr

/-- The history-append stage for a finalized transcript:
`msgHistory.push({role:'user', content: transcript})`. -/
def userAppendStage (history : List Turn) (transcript : String) : List Turn :=
  history ++ [userTurn transcript]

/-- Pair each emitted sentence unit with the outcome of its synthesis call,
`oc i` being the outcome of the `i`-th call. -/
def zipOutcomes (sentences : List String) (oc : Nat → SynthOutcome) :
    List (String × SynthOutcome) :=
  sentences.enum.map fun p => (p.2, oc p.1)

/-- The transcript callback passed to `deepgramSTT.connect` in `index.ts`:
always send `{type:'text', text: transcript, interim: !isFinal}`; then,
only `if (isFinal && transcript.trim())`, push the user turn, invoke
inference (whose streamed fragments are `fragments`), and pipe the stream
through `bufferText`, handling each emitted sentence unit in order. -/
def handleTranscript (cap : Nat) (history : List Turn) (transcript : String)
    (isFinal : Bool) (fragments : List String) (oc : Nat → SynthOutcome) :
    HandleResult :=
  let interimMsg := OutMsg.transcriptText transcript (!isFinal)
  if isFinal && !(jsTrim transcript).isEmpty then
    let sentences := bufferTextS cap fragments
    let res := runSentencePipeline (userAppendStage history transcript)
      (zipOutcomes sentences oc)
    ⟨res.1, interimMsg :: res.2, true⟩
  else ⟨history, [interimMsg], false⟩

/-- Messages a client can deliver on the session WebSocket: a JSON string
`{type, data}` or a binary audio frame. -/
inductive ClientMsg where
  | textMsg (type : String) (data : String)
  | audioFrame (size : Nat)
deriving DecidableEq, Repr

/-- Session state owned by the controller: the conversation history and the
synthesis queue. -/
structure SessionState where
  history : List Turn
  queue : QueueState
deriving DecidableEq, Repr

/-- The `ws` message listener in `index.ts`: a string message is parsed and
only `{type:'cmd', data:'clear'}` acts, setting `msgHistory.length = 0`;
other strings are ignored; a binary frame is forwarded to
`deepgramSTT.sendAudio` and touches no session state. -/
def handleClientMessage (st : SessionState) : ClientMsg → SessionState
  | .textMsg ty dat =>
      if ty = "cmd" ∧ dat = "clear" then { st with history := [] } else st
  | .audioFrame _ => st

/-- Effect of one raw Deepgram transcript event on the session: the handler
in `DeepgramSTT.connect` extracts the transcript and finality and invokes
the controller's callback only when the extracted transcript is non-empty
and a callback is registered; otherwise nothing happens. -/
def transcriptEventEffect (cap : Nat) (history : List Turn)
    (d : TranscriptData) (hasCallback : Bool) (fragments : List String)
    (oc : Nat → SynthOutcome) : HandleResult :=
  if invokesCallback d hasCallback then
    handleTranscript cap history (extractedTranscript d) (extractedIsFinal d)
      fragments oc
  else ⟨history, [], false⟩

/-! ### Helper lemmas -/

/-- Everything `extractUnits` emits, concatenated, followed by the residual,
is exactly the original buffer. -/
theorem extractUnits_join (cap : Nat) :
    ∀ n (buf : List Char), buf.length ≤ n →
      (extractUnits cap buf).1.flatten ++ (extractUnits cap buf).2 = buf := by
  intro n
  induction n with
  | zero =>
    intro buf hlen
    have hb : buf = [] := List.length_eq_zero.mp (Nat.le_zero.mp hlen)
    subst hb
    rw [extractUnits]
    simp [findBoundary]
  | succ n ih =>
    intro buf hlen
    rw [extractUnits]
    cases h : findBoundary buf with
    | some i =>
      have hi := findBoundary_lt h
      have hrec := ih (buf.drop (i + 1)) (by simp; omega)
      simp only [List.flatten_cons]
      rw [List.append_assoc, hrec, List.take_append_drop]
    | none =>
      by_cases hc : 0 < cap ∧ cap < buf.length
      · have hrec := ih (buf.drop cap) (by simp; omega)
        rw [dif_pos hc]
        simp only [List.flatten_cons]
        rw [List.append_assoc, hrec, List.take_append_drop]
      · rw [dif_neg hc]
        simp

theorem feedAll_invariant (cap : Nat) (frags : List (List Char)) :
    ∀ (us : List (List Char)) (r : List Char),
      (frags.foldl (feedFragment cap) (us, r)).1.flatten
          ++ (frags.foldl (feedFragment cap) (us, r)).2
        = us.flatten ++ r ++ frags.flatten := by
  induction frags with
  | nil => intro us r; simp
  | cons f fs ih =>
    intro us r
    simp only [List.foldl_cons, feedFragment]
    rw [ih]
    have hx := extractUnits_join cap (r ++ f).length (r ++ f) (Nat.le_refl _)
    simp only [List.flatten_append, List.flatten_cons]
    rw [List.append_assoc, List.append_assoc,
      ← List.append_assoc (extractUnits cap (r ++ f)).1.flatten]
    rw [hx]
    simp

theorem queueRun_add (st : QueueState) (a b : Nat) :
    queueRun st (a + b) = queueRun (queueRun st a) b := by
  induction a generalizing st with
  | zero => simp [queueRun]
  | succ a ih =>
    have hsucc : a + 1 + b = (a + b) + 1 := by omega
    rw [hsucc]
    simp only [queueRun]
    exact ih (queueStep st)

/-- Running the current task to completion: after `k + 1` steps the task
with remaining latency `k` has emitted its one message. -/
theorem queueRun_completes (j : Job) :
    ∀ (k : Nat) (pending : List Job) (sent : List OutMsg),
      queueRun ⟨pending, some (j, k), sent⟩ (k + 1)
        = ⟨pending, none, sent ++ [jobMessage j]⟩ := by
  intro k
  induction k with
  | zero => intro pending sent; simp [queueRun, queueStep]
  | succ k ih =>
    intro pending sent
    show queueRun (queueStep ⟨pending, some (j, k + 1), sent⟩) (k + 1) = _
    simp only [queueStep]
    exact ih pending sent

/-- Draining lemma: starting idle with `jobs` pending, `queueFuel jobs`
steps process every job and send its messages in submission order. -/
theorem queueRun_drain :
    ∀ (jobs : List Job) (sent : List OutMsg),
      queueRun ⟨jobs, none, sent⟩ (queueFuel jobs)
        = ⟨[], none, sent ++ jobs.map jobMessage⟩ := by
  intro jobs
  induction jobs with
  | nil => intro sent; simp [queueFuel, queueRun]
  | cons j rest ih =>
    intro sent
    have hfuel : queueFuel (j :: rest) = 1 + (j.latency + 1) + queueFuel rest := by
      simp [queueFuel, jobFuel]
      omega
    rw [hfuel, queueRun_add, queueRun_add]
    have h1 : queueRun ⟨j :: rest, none, sent⟩ 1 = ⟨rest, some (j, j.latency), sent⟩ := by
      simp [queueRun, queueStep]
    rw [h1, queueRun_completes, ih]
    simp

theorem closeStorm_unbounded (a : Nat) (e : Bool) :
    ∀ n, closeStorm ⟨a, true, e⟩ n = ⟨a + n, true, e⟩ := by
  intro n
  induction n generalizing a with
  | zero => simp [closeStorm]
  | succ n ih =>
    show closeStorm (onUnexpectedClose ⟨a, true, e⟩) n = _
    simp only [onUnexpectedClose, if_pos]
    rw [ih (a + 1)]
    simp
    omega

/-- The history produced by the per-sentence pipeline: every emitted unit
appends its assistant turn, and the synthesis outcomes never touch it. -/
theorem runSentencePipeline_history (work : List (String × SynthOutcome)) :
    ∀ h : List Turn,
      (runSentencePipeline h work).1 = h ++ work.map (fun p => assistantTurn p.1) := by
  induction work with
  | nil => intro h; simp [runSentencePipeline]
  | cons p rest ih =>
    intro h
    cases p with
    | mk s o =>
      simp only [runSentencePipeline]
      rw [ih]
      simp

theorem zipOutcomes_assistant (s : List String) (oc : Nat → SynthOutcome) :
    (zipOutcomes s oc).map (fun p => assistantTurn p.1) = s.map assistantTurn := by
  simp only [zipOutcomes, List.map_map]
  have hsnd : s.enum.map Prod.snd = s := by simp
  calc s.enum.map ((fun p => assistantTurn p.1) ∘ fun p => (p.2, oc p.1))
      = s.enum.map (fun p => assistantTurn p.2) := by
        apply List.map_congr_left
        intro p _
        rfl
    _ = (s.enum.map Prod.snd).map assistantTurn := by rw [List.map_map]; rfl
    _ = s.map assistantTurn := by rw [hsnd]

theorem sttDisconnect_eq (st : STTState) (b : Bool) :
    sttDisconnect st b
      = { st with hasConnection := false, isConnected := false } := by
  cases st with
  | mk c hc r cb => cases hc <;> simp [sttDisconnect]

theorem ttsDisconnect_eq (st : TTSLinkState) (b : Bool) :
    ttsDisconnect st b
      = { st with hasConnection := false, isConnected := false } := by
  cases st with
  | mk hc c => cases hc <;> simp [ttsDisconnect]

/-! ### Claims -/

/-- C1: for any submission list and any assignment of synthesis completion
latencies (each job's `latency` is arbitrary — every interleaving of
completion times), the concurrency-1 queue drains completely and the
outbound messages appear in exact submission order: the message of an
earlier-submitted unit is sent before the message of every later-submitted
unit. -/
theorem queue_emits_in_submission_order (jobs : List Job) :
    queueRun ⟨jobs, none, []⟩ (queueFuel jobs)
      = ⟨[], none, jobs.map jobMessage⟩ := by
  simpa using queueRun_drain jobs []

/-- C2: concatenating all units emitted by the sentence buffer, in emission
order, including the final flush of a non-empty residual, reproduces the
concatenation of the input fragments exactly — no text is lost and none is
duplicated. (`bufferText` is modelled from spec §4.1; its source file
`./utils` is not in the repository.) -/
theorem bufferText_reproduces_input (cap : Nat) (frags : List (List Char)) :
    (bufferTextL cap frags).flatten = frags.flatten := by
  have h := feedAll_invariant cap frags [] []
  simp only [List.flatten_nil, List.nil_append] at h
  simp only [bufferTextL, feedAll]
  by_cases hr : (frags.foldl (feedFragment cap) ([], [])).2.isEmpty
  · rw [if_pos hr]
    have h2 : (frags.foldl (feedFragment cap) ([], [])).2 = [] := by
      simpa using hr
    rw [h2, List.append_nil] at h
    exact h
  · rw [if_neg hr]
    rw [List.flatten_append]
    simpa using h

/-- C3: every submitted unit yields exactly one outbound message — an audio
message on success, the text-only `[TTS Error]` fallback when the synthesis
call reports an error or delivers no audio within the bounded timeout — and
after a fallback the queue drains the remaining submissions instead of
stalling or dropping them. -/
theorem queue_exactly_one_message_per_unit (pre post : List Job)
    (s a : String) (lat : Nat) :
    queueRun ⟨pre ++ ⟨s, lat, .timeout⟩ :: post, none, []⟩
        (queueFuel (pre ++ ⟨s, lat, .timeout⟩ :: post))
      = ⟨[], none, pre.map jobMessage
          ++ OutMsg.fallbackText ("[TTS Error] " ++ s) :: post.map jobMessage⟩
    ∧ queueRun ⟨pre ++ ⟨s, lat, .failure⟩ :: post, none, []⟩
        (queueFuel (pre ++ ⟨s, lat, .failure⟩ :: post))
      = ⟨[], none, pre.map jobMessage
          ++ OutMsg.fallbackText ("[TTS Error] " ++ s) :: post.map jobMessage⟩
    ∧ queueRun ⟨pre ++ ⟨s, lat, .success a⟩ :: post, none, []⟩
        (queueFuel (pre ++ ⟨s, lat, .success a⟩ :: post))
      = ⟨[], none, pre.map jobMessage
          ++ OutMsg.audioMsg s a :: post.map jobMessage⟩ := by
  refine ⟨?_, ?_, ?_⟩ <;>
    · rw [queueRun_drain]
      simp [jobMessage, taskMessage]

/-- C4 (code bug): the automatic reconnect of the transcription link is not
bounded. After any number `n` of consecutive unexpected closes with a
registered callback, the link has scheduled `n` reconnects, has never
escalated to the error callback, and the next close schedules yet another
reconnect — there is no cap `N` after which it stops. -/
theorem reconnect_retries_never_bounded (n : Nat) :
    closeStorm ⟨0, true, false⟩ n = ⟨n, true, false⟩
      ∧ (closeStorm ⟨0, true, false⟩ n).escalated = false
      ∧ (onUnexpectedClose (closeStorm ⟨0, true, false⟩ n)).attempts = n + 1 := by
  have h := closeStorm_unbounded 0 false n
  simp only [Nat.zero_add] at h
  refine ⟨h, by rw [h], ?_⟩
  rw [h]
  simp [onUnexpectedClose]

/-- C5 counterexample: a concrete not-connected state in which `sendAudio`
discards the audio without initiating any recovery, refuting the claim that
this never happens: the link is disconnected but a reconnect is already in
flight (`isReconnecting = true`), so the call bare-returns and this call's
buffer is lost. -/
theorem sendAudio_drops_during_reconnect :
    (STTState.mk false false true true).isConnected = false
      ∧ sendAudio ⟨false, false, true, true⟩
          = SendAudioAction.dropWithoutRecovery :=
  ⟨rfl, rfl⟩

/-- C5 (amended): while the link is not connected, `sendAudio` triggers a
reconnect attempt with resend-on-success exactly when a transcript callback
is registered and no reconnect is already in progress; otherwise it drops
the audio without initiating recovery. -/
theorem sendAudio_recovery_requires_idle_callback (st : STTState)
    (h : st.isConnected = false) :
    sendAudio st
      = (if st.hasCallback && !st.isReconnecting
          then SendAudioAction.reconnectThenResend
          else SendAudioAction.dropWithoutRecovery) := by
  simp [sendAudio, h]

/-- C5 witness: the amended theorem applied to a concrete disconnected,
idle state with a registered callback. -/
theorem sendAudio_recovery_requires_idle_callback_witness :
    sendAudio ⟨false, false, false, true⟩
      = SendAudioAction.reconnectThenResend := by
  have hw := sendAudio_recovery_requires_idle_callback ⟨false, false, false, true⟩ rfl
  simpa using hw

/-- C6: an interim transcript event (`isFinal = false`) leaves the history
unchanged and invokes no inference (only the interim text message goes
out); in general, inference is invoked exactly when the event is final and
the transcript is non-empty after trimming, so only a final event triggers
the user-turn append and an inference invocation. -/
theorem interim_event_no_append_no_inference (cap : Nat) (h : List Turn)
    (t : String) (frags : List String) (oc : Nat → SynthOutcome) :
    handleTranscript cap h t false frags oc
        = ⟨h, [OutMsg.transcriptText t true], false⟩
      ∧ ∀ b : Bool, (handleTranscript cap h t b frags oc).inferenceInvoked
          = (b && !(jsTrim t).isEmpty) := by
  constructor
  · simp [handleTranscript]
  · intro b
    cases b <;> cases hh : (jsTrim t).isEmpty <;> simp [handleTranscript, hh]

/-- C7: each sentence unit's assistant turn is pushed before its synthesis
resolves (`appendPrecedesDone` on the unit's event trace), and the final
history of the sentence pipeline is the incoming history plus one assistant
turn per unit — it does not depend on the synthesis outcomes at all, so a
failure or timeout retracts nothing and modifies no other turn. -/
theorem assistant_turn_appended_before_synthesis (h : List Turn)
    (work : List (String × SynthOutcome)) (s : String) (o : SynthOutcome) :
    (runSentencePipeline h work).1
        = h ++ work.map (fun p => assistantTurn p.1)
      ∧ appendPrecedesDone s o = true :=
  ⟨runSentencePipeline_history work h, rfl⟩

/-- C8: the clear command empties the history whatever it held, leaves the
synthesis queue untouched, and the next finalized non-blank transcript
starts a fresh history: at the moment the user turn is appended the history
has length 1, and the handler's resulting history begins with that user
turn followed only by the new assistant turns. -/
theorem clear_resets_history (st : SessionState) (cap : Nat) (t : String)
    (frags : List String) (oc : Nat → SynthOutcome) :
    (handleClientMessage st (.textMsg ("cmd") ("clear"))).history = []
      ∧ (handleClientMessage st (.textMsg ("cmd") ("clear"))).queue = st.queue
      ∧ (userAppendStage
          (handleClientMessage st (.textMsg ("cmd") ("clear"))).history t).length = 1
      ∧ ((jsTrim t).isEmpty = false →
          (handleTranscript cap
              (handleClientMessage st (.textMsg ("cmd") ("clear"))).history
              t true frags oc).history
            = userTurn t :: (bufferTextS cap frags).map assistantTurn) := by
  have hcl : handleClientMessage st (.textMsg ("cmd") ("clear"))
      = { st with history := [] } := by
    simp [handleClientMessage]
  refine ⟨by rw [hcl], by rw [hcl], by rw [hcl]; simp [userAppendStage], ?_⟩
  intro ht
  rw [hcl]
  simp only [handleTranscript, ht, Bool.not_false, Bool.and_self, if_pos]
  rw [runSentencePipeline_history, zipOutcomes_assistant]
  simp [userAppendStage]

/-- C8 witness: the clear theorem applied to a session holding two turns
and a subsequent finalized transcript with non-blank text. -/
theorem clear_resets_history_witness :
    (handleClientMessage ⟨[userTurn ("a"), assistantTurn ("b")], ⟨[], none, []⟩⟩
        (.textMsg ("cmd") ("clear"))).history = []
      ∧ (handleTranscript 100
            (handleClientMessage
              ⟨[userTurn ("a"), assistantTurn ("b")], ⟨[], none, []⟩⟩
              (.textMsg ("cmd") ("clear"))).history
            ("hello") true [("Ok.")] (fun _ => .timeout)).history
          = userTurn ("hello") :: (bufferTextS 100 [("Ok.")]).map assistantTurn :=
  ⟨(clear_resets_history ⟨[userTurn ("a"), assistantTurn ("b")], ⟨[], none, []⟩⟩
      100 ("hello") [("Ok.")] (fun _ => .timeout)).1,
   (clear_resets_history ⟨[userTurn ("a"), assistantTurn ("b")], ⟨[], none, []⟩⟩
      100 ("hello") [("Ok.")] (fun _ => .timeout)).2.2.2 (by decide)⟩

/-- C9: both links' `disconnect` is idempotent, always lands in the
disconnected state (`isConnected = false`, connection handle null), and an
error raised while closing the underlying connection is swallowed: the
resulting state is identical whether or not the close raises, and no
exception reaches the caller (the model is a total function). -/
theorem disconnect_idempotent_swallows_errors (st : STTState)
    (st2 : TTSLinkState) (b b' : Bool) :
    sttDisconnect (sttDisconnect st b) b' = sttDisconnect st b
      ∧ (sttDisconnect st b).isConnected = false
      ∧ (sttDisconnect st b).hasConnection = false
      ∧ sttDisconnect st true = sttDisconnect st false
      ∧ ttsDisconnect (ttsDisconnect st2 b) b' = ttsDisconnect st2 b
      ∧ (ttsDisconnect st2 b).isConnected = false
      ∧ (ttsDisconnect st2 b).hasConnection = false
      ∧ ttsDisconnect st2 true = ttsDisconnect st2 false := by
  refine ⟨?_, ?_, ?_, ?_, ?_, ?_, ?_, ?_⟩ <;>
    simp [sttDisconnect_eq, ttsDisconnect_eq]

/-- C10: a transcription event whose extracted transcript is the empty
string never reaches the caller's callback, so it changes no history, sends
no outbound message and invokes no inference; moreover a final transcript
that is blank after trimming sends only its text echo, appends no user
turn and invokes no inference. -/
theorem empty_transcript_no_effect (cap : Nat) (h : List Turn)
    (d : TranscriptData) (cb : Bool) (frags : List String)
    (oc : Nat → SynthOutcome) (t : String) :
    (extractedTranscript d = "" →
        transcriptEventEffect cap h d cb frags oc = ⟨h, [], false⟩)
      ∧ ((jsTrim t).isEmpty = true →
          handleTranscript cap h t true frags oc
            = ⟨h, [OutMsg.transcriptText t false], false⟩) := by
  constructor
  · intro hE
    have hempty : ("" : String).isEmpty = true := rfl
    simp [transcriptEventEffect, invokesCallback, hE, hempty]
  · intro ht
    simp [handleTranscript, ht]

/-- C10 witness: the theorem applied to an event carrying no transcript
field and to a whitespace-only final transcript. -/
theorem empty_transcript_no_effect_witness :
    transcriptEventEffect 100 [] ⟨none, some true⟩ true [] (fun _ => .timeout)
        = ⟨[], [], false⟩
      ∧ handleTranscript 100 [] ("  ") true [] (fun _ => .timeout)
          = ⟨[], [OutMsg.transcriptText ("  ") false], false⟩ :=
  ⟨(empty_transcript_no_effect 100 [] ⟨none, some true⟩ true []
      (fun _ => .timeout) ("  ")).1 rfl,
   (empty_transcript_no_effect 100 [] ⟨none, some true⟩ true []
      (fun _ => .timeout) ("  ")).2 (by decide)⟩

end Talk2AI
